import Mathlib

/-!
Verification development for the kitchen-inventory ledger application.

The definitions below are a shallow embedding of the TypeScript source:

* `normalize`        embeds the unit-normalization helper
  (src/unnamed/part_001 lines 95-109, duplicated in part_002).
* `Transaction`, `InventoryItem` embed the interfaces of the same files.
* `applyTx` / `getInventory` embed the aggregation fold `getInventory`
  (src/unnamed/part_001 lines 150-237, duplicated in part_002).
* `getTransactions` / `addTransaction` embed the persistence layer of
  part_001 (lines 111-147), with the file-system effects passed in
  explicitly as `Except` outcomes.
* `addTransactionRMW` / `concurrentAppendRace` model the read-modify-write
  overwrite performed by the blob / local-file append
  (src/unnamed/part_002 lines 117-131 and 163-176).

JavaScript `number` values are modelled as `Int` (exact arithmetic over the
quantities the system manipulates); a possibly-`undefined` string field is
modelled as `Option String`.  The JavaScript truthiness test `!s` on a
string is true exactly for the empty string, which the embedding makes
explicit wherever the source relies on it (`unit || 'stück'`, `if (!unit)`).
-/

namespace KitchenLedger

/-- Models JavaScript `String.prototype.toLowerCase` character by character
(ASCII case folding; non-ASCII characters such as `ü` are already
lower-case in every label this program manipulates). -/
def jsToLower (s : String) : String :=
  String.mk (s.data.map Char.toLower)

/-- Models JavaScript `String.prototype.trim`: drop leading and trailing
whitespace. -/
def jsTrim (s : String) : String :=
  String.mk (((s.data.dropWhile Char.isWhitespace).reverse.dropWhile Char.isWhitespace).reverse)

/-- Transaction kind, embedding the union type `'ADD' | 'REMOVE'`. -/
inductive TxType where
  | ADD
  | REMOVE
deriving DecidableEq, Repr

/-- Embeds `interface Transaction` (src/unnamed/part_001 lines 78-85):
`id`, `timestamp`, `type`, `name`, `quantity`, optional `unit`. -/
structure Transaction where
  id : String
  timestamp : Int
  type : TxType
  name : String
  quantity : Int
  unit : Option String
deriving DecidableEq, Repr

/-- Embeds `interface InventoryItem` (src/unnamed/part_001 lines 88-92).
`unit` is declared `string` in TypeScript but the value stored in the
aggregation map can become `undefined` at runtime (the fold assigns
`tx.unit!` whose non-null assertion is erased), so it is modelled as
`Option String`. -/
structure InventoryItem where
  name : String
  quantity : Int
  unit : Option String
deriving DecidableEq, Repr

/-- Embeds the unit-normalization helper `normalize`
(src/unnamed/part_001 lines 95-109): absent or empty (falsy) unit maps to
`'stück'`; the label is lower-cased and trimmed and matched against the
alias lists of the source; unrecognized labels pass through. -/
def normalize (quantity : Int) (unit : Option String) : Int × String :=
  match unit with
  | none => (quantity, "stück")
  | some s =>
    if s = "" then (quantity, "stück")
    else
      let u := jsTrim (jsToLower s)
      if u ∈ ["kg", "kilo", "kilogramm"] then (quantity * 1000, "g")
      else if u ∈ ["g", "gramm", "gr"] then (quantity, "g")
      else if u ∈ ["l", "liter"] then (quantity * 1000, "ml")
      else if u ∈ ["ml", "milliliter"] then (quantity, "ml")
      else (quantity, u)

/-- Per-key value stored in the aggregation `Map`
(`{ quantity: number, unit: string }`); see the `unit` caveat on
`InventoryItem`. -/
structure ItemState where
  quantity : Int
  unit : Option String
deriving DecidableEq, Repr

/-- The aggregation `Map<string, {quantity, unit}>`, modelled as an
insertion-ordered association list (JavaScript `Map` iteration order). -/
abbrev InventoryMap := List (String × ItemState)

/-- `Map.get`: first binding of the key, if any. -/
def mapGet (m : InventoryMap) (k : String) : Option ItemState :=
  match m with
  | [] => none
  | (k1, v) :: rest => if k1 = k then some v else mapGet rest k

/-- `Map.set`: replace the binding in place (JavaScript `Map` keeps the
original insertion position) or append a new binding at the end. -/
def mapSet (m : InventoryMap) (k : String) (v : ItemState) : InventoryMap :=
  match m with
  | [] => [(k, v)]
  | (k1, v1) :: rest => if k1 = k then (k, v) :: rest else (k1, v1) :: mapSet rest k v

/-- The JavaScript expression `tx.unit || 'stück'`: `undefined` and the
empty string are falsy. -/
def jsOr (o : Option String) (d : String) : String :=
  match o with
  | none => d
  | some s => if s = "" then d else s

/-- One iteration of the aggregation loop of `getInventory`
(src/unnamed/part_001 lines 154-219) on the mutable map:
lazily initialize the key with `{quantity: 0, unit: tx.unit || 'stück'}`,
then branch on the transaction type exactly as the source does.
All three ADD branches add the raw quantity (the unit-mismatch branch
deliberately kept by the source); the REMOVE mismatch branches
(`tx.unit === 'stück' && tx.quantity === 1` and the other mismatches)
both leave the map untouched. -/
def applyTx (m : InventoryMap) (tx : Transaction) : InventoryMap :=
  let key := jsToLower tx.name
  let m1 := match mapGet m key with
    | none => mapSet m key ⟨0, some (jsOr tx.unit "stück")⟩
    | some _ => m
  let current : ItemState := match mapGet m key with
    | none => ⟨0, some (jsOr tx.unit "stück")⟩
    | some c => c
  match tx.type with
  | .ADD =>
    if current.quantity = 0 then
      mapSet m1 key ⟨current.quantity + tx.quantity, tx.unit⟩
    else if current.unit = tx.unit then
      mapSet m1 key ⟨current.quantity + tx.quantity, current.unit⟩
    else
      mapSet m1 key ⟨current.quantity + tx.quantity, current.unit⟩
  | .REMOVE =>
    if current.unit = tx.unit then
      mapSet m1 key ⟨current.quantity - tx.quantity, current.unit⟩
    else if tx.unit = some "stück" ∧ tx.quantity = 1 then
      m1
    else
      m1

/-- The fold of the whole transaction list into the aggregation map
(the `for (const tx of transactions)` loop, starting from an empty map). -/
def inventoryFold (transactions : List Transaction) : InventoryMap :=
  transactions.foldl applyTx []

/-- Embeds the display-name lookup of the emission phase
(src/unnamed/part_001 line 225): the `name` of the last transaction whose
lower-cased name equals the key, scanning the list in reverse. -/
def displayName (transactions : List Transaction) (k : String) : String :=
  match transactions.reverse.find? (fun t => jsToLower t.name == k) with
  | some t => t.name
  | none => k

/-- Embeds `getInventory` (src/unnamed/part_001 lines 150-237): fold all
transactions, then emit one `InventoryItem` per map entry with positive
quantity, in map (insertion) order. -/
def getInventory (transactions : List Transaction) : List InventoryItem :=
  (inventoryFold transactions).filterMap (fun kv =>
    if kv.2.quantity > 0 then
      some { name := displayName transactions kv.1
             quantity := kv.2.quantity
             unit := kv.2.unit }
    else none)

/-! ### Basic lemmas about the association-list model of `Map` -/

theorem mapGet_mapSet_self (m : InventoryMap) (k : String) (v : ItemState) :
    mapGet (mapSet m k v) k = some v := by
  induction m with
  | nil => simp [mapSet, mapGet]
  | cons hd tl ih =>
    obtain ⟨k1, v1⟩ := hd
    by_cases h : k1 = k
    · simp [mapSet, mapGet, h]
    · simp [mapSet, mapGet, h, ih]

theorem mapGet_mapSet_ne (m : InventoryMap) (k1 k : String) (v : ItemState)
    (hne : k1 ≠ k) : mapGet (mapSet m k1 v) k = mapGet m k := by
  induction m with
  | nil => simp [mapSet, mapGet, hne]
  | cons hd tl ih =>
    obtain ⟨k2, v2⟩ := hd
    by_cases h : k2 = k1
    · subst h
      simp [mapSet, mapGet, hne]
    · simp [mapSet, mapGet, h, ih]

theorem mem_keys_mapSet (m : InventoryMap) (k k2 : String) (v : ItemState) :
    k2 ∈ (mapSet m k v).map Prod.fst ↔ k2 ∈ m.map Prod.fst ∨ k2 = k := by
  induction m with
  | nil => simp [mapSet]
  | cons hd tl ih =>
    obtain ⟨k1, v1⟩ := hd
    by_cases h : k1 = k
    · subst h
      simp [mapSet]
      tauto
    · simp [mapSet, h, ih]
      tauto

theorem keys_nodup_mapSet (m : InventoryMap) (k : String) (v : ItemState)
    (hnd : (m.map Prod.fst).Nodup) : ((mapSet m k v).map Prod.fst).Nodup := by
  induction m with
  | nil => simp [mapSet]
  | cons hd tl ih =>
    obtain ⟨k1, v1⟩ := hd
    simp only [List.map_cons, List.nodup_cons] at hnd
    by_cases h : k1 = k
    · subst h
      simpa [mapSet] using hnd
    · simp only [mapSet, h, if_false, List.map_cons, List.nodup_cons]
      refine ⟨?_, ih hnd.2⟩
      rw [mem_keys_mapSet]
      tauto

theorem mapGet_eq_none_iff (m : InventoryMap) (k : String) :
    mapGet m k = none ↔ k ∉ m.map Prod.fst := by
  induction m with
  | nil => simp [mapGet]
  | cons hd tl ih =>
    obtain ⟨k1, v1⟩ := hd
    by_cases h : k1 = k
    · subst h
      simp [mapGet]
    · simp [mapGet, h, ih]
      tauto

/-! ### The effect of one loop iteration at a single key

`stepAtKey` is a proof-side restatement of `applyTx`'s effect on the
binding of the transaction's own key; `mapGet_applyTx_self` proves it
agrees with the embedding. -/

/-- The new per-key state produced by one iteration of the aggregation
loop for the transaction's own key, as a function of the previous state
(`none` when the key has not been seen yet). -/
def stepAtKey (s : Option ItemState) (tx : Transaction) : ItemState :=
  let current : ItemState := match s with
    | none => ⟨0, some (jsOr tx.unit "stück")⟩
    | some c => c
  match tx.type with
  | .ADD =>
    if current.quantity = 0 then ⟨current.quantity + tx.quantity, tx.unit⟩
    else ⟨current.quantity + tx.quantity, current.unit⟩
  | .REMOVE =>
    if current.unit = tx.unit then ⟨current.quantity - tx.quantity, current.unit⟩
    else current

theorem mapGet_applyTx_self (m : InventoryMap) (tx : Transaction) :
    mapGet (applyTx m tx) (jsToLower tx.name) =
      some (stepAtKey (mapGet m (jsToLower tx.name)) tx) := by
  unfold applyTx stepAtKey
  cases hget : mapGet m (jsToLower tx.name) with
  | none =>
    cases hty : tx.type <;>
      simp only [hget, hty] <;>
      split_ifs <;>
      simp [mapGet_mapSet_self, hget]
  | some c =>
    cases hty : tx.type <;>
      simp only [hget, hty] <;>
      split_ifs <;>
      simp [mapGet_mapSet_self, hget]

theorem mapGet_applyTx_ne (m : InventoryMap) (tx : Transaction) (k : String)
    (hne : jsToLower tx.name ≠ k) :
    mapGet (applyTx m tx) k = mapGet m k := by
  unfold applyTx
  cases hget : mapGet m (jsToLower tx.name) with
  | none =>
    cases hty : tx.type <;>
      simp only [hget, hty] <;>
      split_ifs <;>
      simp [mapGet_mapSet_ne _ _ _ _ hne, hget]
  | some c =>
    cases hty : tx.type <;>
      simp only [hget, hty] <;>
      split_ifs <;>
      simp [mapGet_mapSet_ne _ _ _ _ hne, hget]

theorem mem_keys_applyTx (m : InventoryMap) (tx : Transaction) (k2 : String) :
    k2 ∈ (applyTx m tx).map Prod.fst ↔
      k2 ∈ m.map Prod.fst ∨ k2 = jsToLower tx.name := by
  have hsub : ∀ v0 v1 : ItemState,
      k2 ∈ (mapSet (mapSet m (jsToLower tx.name) v0) (jsToLower tx.name) v1).map Prod.fst ↔
        k2 ∈ m.map Prod.fst ∨ k2 = jsToLower tx.name := by
    intro v0 v1
    simp only [mem_keys_mapSet]
    tauto
  have hone : ∀ v1 : ItemState,
      k2 ∈ (mapSet m (jsToLower tx.name) v1).map Prod.fst ↔
        k2 ∈ m.map Prod.fst ∨ k2 = jsToLower tx.name := by
    intro v1
    simp only [mem_keys_mapSet]
  unfold applyTx
  cases hget : mapGet m (jsToLower tx.name) with
  | none =>
    cases hty : tx.type <;>
      simp only [hget] <;>
      split_ifs <;>
      first
        | exact hsub _ _
        | exact hone _
  | some c =>
    have hmem : jsToLower tx.name ∈ m.map Prod.fst := by
      by_contra hc
      rw [← mapGet_eq_none_iff] at hc
      simp [hc] at hget
    have hm : k2 ∈ m.map Prod.fst ↔ k2 ∈ m.map Prod.fst ∨ k2 = jsToLower tx.name := by
      constructor
      · exact Or.inl
      · rintro (h | rfl)
        · exact h
        · exact hmem
    cases hty : tx.type <;>
      simp only [hget] <;>
      split_ifs <;>
      first
        | exact hone _
        | exact hm

theorem keys_nodup_applyTx (m : InventoryMap) (tx : Transaction)
    (hnd : (m.map Prod.fst).Nodup) : ((applyTx m tx).map Prod.fst).Nodup := by
  unfold applyTx
  cases hget : mapGet m (jsToLower tx.name) with
  | none =>
    cases hty : tx.type <;>
      simp only [hget, hty] <;>
      split_ifs <;>
      first
        | exact keys_nodup_mapSet _ _ _ (keys_nodup_mapSet _ _ _ hnd)
        | exact keys_nodup_mapSet _ _ _ hnd
  | some c =>
    cases hty : tx.type <;>
      simp only [hget, hty] <;>
      split_ifs <;>
      first
        | exact keys_nodup_mapSet _ _ _ hnd
        | exact hnd

/-! ### The fold, viewed one key at a time -/

/-- The evolution of a single key's state along the transaction list:
transactions with a different (case-folded) name leave it untouched. -/
def foldAtKey (k : String) (s : Option ItemState) (txs : List Transaction) :
    Option ItemState :=
  txs.foldl (fun s t => if jsToLower t.name = k then some (stepAtKey s t) else s) s

theorem foldAtKey_nil (k : String) (s : Option ItemState) :
    foldAtKey k s [] = s := rfl

theorem foldAtKey_cons (k : String) (s : Option ItemState) (t : Transaction)
    (rest : List Transaction) :
    foldAtKey k s (t :: rest) =
      foldAtKey k (if jsToLower t.name = k then some (stepAtKey s t) else s) rest := rfl

theorem mapGet_foldl_applyTx (txs : List Transaction) (m : InventoryMap) (k : String) :
    mapGet (txs.foldl applyTx m) k = foldAtKey k (mapGet m k) txs := by
  induction txs generalizing m with
  | nil => rfl
  | cons t rest ih =>
    rw [List.foldl_cons, foldAtKey_cons, ih]
    by_cases h : jsToLower t.name = k
    · subst h
      rw [mapGet_applyTx_self]
      simp
    · rw [mapGet_applyTx_ne _ _ _ h]
      simp [h]

theorem keys_nodup_foldl (txs : List Transaction) (m : InventoryMap)
    (hnd : (m.map Prod.fst).Nodup) :
    ((txs.foldl applyTx m).map Prod.fst).Nodup := by
  induction txs generalizing m with
  | nil => exact hnd
  | cons t rest ih => exact ih _ (keys_nodup_applyTx _ _ hnd)

theorem mem_keys_foldl (txs : List Transaction) (m : InventoryMap) (k2 : String)
    (hmem : k2 ∈ (txs.foldl applyTx m).map Prod.fst) :
    k2 ∈ m.map Prod.fst ∨ ∃ t ∈ txs, jsToLower t.name = k2 := by
  induction txs generalizing m with
  | nil => exact Or.inl hmem
  | cons t rest ih =>
    rcases ih _ hmem with h | ⟨t', ht', hk⟩
    · rcases (mem_keys_applyTx m t k2).1 h with h2 | h2
      · exact Or.inl h2
      · exact Or.inr ⟨t, List.mem_cons_self _ _, h2.symm⟩
    · exact Or.inr ⟨t', List.mem_cons_of_mem _ ht', hk⟩

/-- The final (internal, unclamped) balance the fold leaves for a key:
the quantity of the final map entry, `0` when the key never appeared. -/
def optQty (s : Option ItemState) : Int :=
  match s with
  | some v => v.quantity
  | none => 0

/-- Final folded quantity of key `k` after aggregating `txs`. -/
def finalQty (txs : List Transaction) (k : String) : Int :=
  optQty (mapGet (inventoryFold txs) k)

/-! ### Characterizing the emitted snapshot -/

theorem jsToLower_displayName (txs : List Transaction) (k : String)
    (h : ∃ t ∈ txs, jsToLower t.name = k) :
    jsToLower (displayName txs k) = k := by
  unfold displayName
  cases hf : txs.reverse.find? (fun t => jsToLower t.name == k) with
  | none =>
    obtain ⟨t, ht, hk⟩ := h
    have := List.find?_eq_none.mp hf t (List.mem_reverse.mpr ht)
    simp [hk] at this
  | some t' =>
    have := List.find?_some hf
    simpa using this

/-- The snapshot entries for a fixed case-folded key, computed from any
intermediate map whose keys all stem from `txs` and are distinct. -/
theorem filter_filterMap_emit (txs : List Transaction) (k : String)
    (m : InventoryMap)
    (horig : ∀ kv ∈ m, ∃ t ∈ txs, jsToLower t.name = kv.1)
    (hnd : (m.map Prod.fst).Nodup) :
    ((m.filterMap (fun kv =>
        if kv.2.quantity > 0 then
          some ({ name := displayName txs kv.1
                  quantity := kv.2.quantity
                  unit := kv.2.unit } : InventoryItem)
        else none)).filter (fun i => jsToLower i.name == k)) =
      (match mapGet m k with
       | some s =>
         if 0 < s.quantity then
           [({ name := displayName txs k, quantity := s.quantity, unit := s.unit } :
             InventoryItem)]
         else []
       | none => []) := by
  induction m with
  | nil => simp [mapGet]
  | cons hd rest ih =>
    obtain ⟨k1, v1⟩ := hd
    have hdisp : jsToLower (displayName txs k1) = k1 :=
      jsToLower_displayName txs k1 (horig (k1, v1) (List.mem_cons_self _ _))
    have horig' : ∀ kv ∈ rest, ∃ t ∈ txs, jsToLower t.name = kv.1 :=
      fun kv hkv => horig kv (List.mem_cons_of_mem _ hkv)
    simp only [List.map_cons, List.nodup_cons] at hnd
    have ih' := ih horig' hnd.2
    by_cases hq : (0 : Int) < v1.quantity
    · by_cases hkk : k1 = k
      · subst hkk
        have hrest : mapGet rest k1 = none :=
          (mapGet_eq_none_iff rest k1).mpr hnd.1
        rw [List.filterMap_cons]
        simp only [gt_iff_lt, hq, if_true]
        rw [List.filter_cons]
        simp only [hdisp, beq_self_eq_true, if_true]
        rw [ih', hrest]
        simp [mapGet, hq]
      · rw [List.filterMap_cons]
        simp only [gt_iff_lt, hq, if_true]
        rw [List.filter_cons]
        have : (jsToLower (displayName txs k1) == k) = false := by
          simp [hdisp, hkk]
        simp only [this, Bool.false_eq_true, if_false]
        rw [ih']
        simp [mapGet, hkk]
    · by_cases hkk : k1 = k
      · subst hkk
        have hrest : mapGet rest k1 = none :=
          (mapGet_eq_none_iff rest k1).mpr hnd.1
        rw [List.filterMap_cons]
        simp only [gt_iff_lt, hq, if_false]
        rw [ih', hrest]
        simp [mapGet, hq]
      · rw [List.filterMap_cons]
        simp only [gt_iff_lt, hq, if_false]
        rw [ih']
        simp [mapGet, hkk]

theorem filter_getInventory (txs : List Transaction) (k : String) :
    (getInventory txs).filter (fun i => jsToLower i.name == k) =
      (match mapGet (inventoryFold txs) k with
       | some s =>
         if 0 < s.quantity then
           [({ name := displayName txs k, quantity := s.quantity, unit := s.unit } :
             InventoryItem)]
         else []
       | none => []) := by
  unfold getInventory
  exact filter_filterMap_emit txs k (inventoryFold txs)
    (fun kv hkv => by
      have := mem_keys_foldl txs [] kv.1
        (List.mem_map_of_mem Prod.fst hkv)
      simpa using this)
    (keys_nodup_foldl txs [] (by simp))

theorem countP_getInventory (txs : List Transaction) (k : String) :
    (getInventory txs).countP (fun i => jsToLower i.name == k) =
      if 0 < finalQty txs k then 1 else 0 := by
  rw [List.countP_eq_length_filter, filter_getInventory]
  unfold finalQty
  cases mapGet (inventoryFold txs) k with
  | none => simp [optQty]
  | some s =>
    have hs : optQty (some s) = s.quantity := rfl
    rw [hs]
    by_cases h : 0 < s.quantity <;> simp [h]

/-! ### Same-unit sequences: the fold reduces to a signed sum -/

/-- Signed contribution of one transaction to its key's balance. -/
def signed (t : Transaction) : Int :=
  match t.type with
  | .ADD => t.quantity
  | .REMOVE => -t.quantity

/-- Sum of the signed quantities of the transactions with case-folded
key `k`. -/
def signedSum (txs : List Transaction) (k : String) : Int :=
  ((txs.filter (fun t => jsToLower t.name == k)).map signed).sum

theorem signedSum_nil (k : String) : signedSum [] k = 0 := rfl

theorem signedSum_cons (t : Transaction) (rest : List Transaction) (k : String) :
    signedSum (t :: rest) k =
      (if jsToLower t.name = k then signed t else 0) + signedSum rest k := by
  unfold signedSum
  by_cases h : jsToLower t.name = k <;> simp [List.filter_cons, h]

theorem signedSum_perm (txs txs' : List Transaction) (k : String)
    (h : txs.Perm txs') : signedSum txs k = signedSum txs' k := by
  unfold signedSum
  exact List.Perm.sum_eq (List.Perm.map signed (List.Perm.filter _ h))

theorem stepAtKey_same_unit (s : Option ItemState) (q : Int) (t : Transaction)
    (u : String) (hu : u ≠ "") (ht : t.unit = some u)
    (hs : (s = none ∧ q = 0) ∨ s = some ⟨q, some u⟩) :
    stepAtKey s t = ⟨q + signed t, some u⟩ := by
  have hjs : jsOr (some u) "stück" = u := by simp [jsOr, hu]
  rcases hs with ⟨rfl, rfl⟩ | rfl
  · cases hty : t.type <;>
      simp [stepAtKey, hty, ht, hjs, signed, sub_eq_add_neg]
  · cases hty : t.type
    · by_cases hq : q = 0 <;>
        simp [stepAtKey, hty, ht, signed, hq]
    · simp [stepAtKey, hty, ht, signed, sub_eq_add_neg]

theorem foldAtKey_same_unit (txs : List Transaction) (k u : String)
    (hu : u ≠ "") :
    ∀ (s : Option ItemState) (q : Int),
      (∀ t ∈ txs, jsToLower t.name = k → t.unit = some u) →
      ((s = none ∧ q = 0) ∨ s = some ⟨q, some u⟩) →
      (foldAtKey k s txs = none ∧ q + signedSum txs k = 0) ∨
        foldAtKey k s txs = some ⟨q + signedSum txs k, some u⟩ := by
  induction txs with
  | nil =>
    intro s q hall hs
    rcases hs with ⟨rfl, rfl⟩ | rfl
    · exact Or.inl ⟨rfl, by simp [signedSum_nil]⟩
    · right
      simp [foldAtKey_nil, signedSum_nil]
  | cons t rest ih =>
    intro s q hall hs
    have hall2 : ∀ t2 ∈ rest, jsToLower t2.name = k → t2.unit = some u :=
      fun t2 ht2 => hall t2 (List.mem_cons_of_mem _ ht2)
    rw [foldAtKey_cons]
    by_cases hk : jsToLower t.name = k
    · have ht : t.unit = some u := hall t (List.mem_cons_self _ _) hk
      rw [if_pos hk, stepAtKey_same_unit s q t u hu ht hs]
      have h := ih (some ⟨q + signed t, some u⟩) (q + signed t) hall2 (Or.inr rfl)
      rw [signedSum_cons, if_pos hk]
      rcases h with ⟨hf, hsum⟩ | hf
      · exact Or.inl ⟨hf, by omega⟩
      · right
        rw [← add_assoc]
        exact hf
    · rw [if_neg hk, signedSum_cons, if_neg hk]
      have h := ih s q hall2 hs
      simpa using h

theorem finalQty_same_unit (txs : List Transaction) (k u : String)
    (hu : u ≠ "") (hall : ∀ t ∈ txs, jsToLower t.name = k → t.unit = some u) :
    finalQty txs k = signedSum txs k := by
  unfold finalQty inventoryFold
  rw [mapGet_foldl_applyTx]
  have hget : mapGet [] k = none := rfl
  rw [hget]
  have h := foldAtKey_same_unit txs k u hu none 0 hall (Or.inl ⟨rfl, rfl⟩)
  rcases h with ⟨hf, hsum⟩ | hf
  · rw [hf]
    simp only [optQty]
    omega
  · rw [hf]
    simp only [optQty]
    omega

/-- The snapshot restricted to one key, with only the quantities kept:
a singleton holding the final balance when it is positive, empty
otherwise. -/
theorem mapQty_filter_getInventory (txs : List Transaction) (k : String) :
    ((getInventory txs).filter (fun i => jsToLower i.name == k)).map
        (fun i => i.quantity) =
      if 0 < finalQty txs k then [finalQty txs k] else [] := by
  rw [filter_getInventory]
  unfold finalQty
  cases hm : mapGet (inventoryFold txs) k with
  | none => simp [optQty]
  | some s =>
    have hs : optQty (some s) = s.quantity := rfl
    rw [hs]
    by_cases h : 0 < s.quantity <;> simp [h]

/-! ### Persistence layer -/

/-- Embeds `getTransactions` (src/unnamed/part_001 lines 112-123).  The
file-system read is passed in explicitly as an `Except` outcome; the
source's `try`/`catch` turns any backend error into the empty list (the
missing-file case also returns `[]`, covered by a successful empty read). -/
def getTransactions (backend : Except String (List Transaction)) : List Transaction :=
  match backend with
  | .ok txs => txs
  | .error _ => []

/-- Embeds `addTransaction` (src/unnamed/part_001 lines 126-147) with the
two backend effects explicit: the file's current contents (the read used
by the push) and the outcome of `writeFileSync`, modelled all-or-nothing.
Returns what the caller sees together with the durable file contents
afterwards: on write success the pushed list; on write failure the
exception propagates and the file keeps its previous contents. -/
def addTransaction (fileContents : List Transaction)
    (writeOutcome : Except String Unit) (id : String) (timestamp : Int)
    (ty : TxType) (name : String) (quantity : Int) (unit : Option String) :
    Except String Transaction × List Transaction :=
  let transactions := fileContents
  let normalized := normalize quantity unit
  let newTransaction : Transaction :=
    ⟨id, timestamp, ty, name, normalized.1, some normalized.2⟩
  match writeOutcome with
  | .ok _ => (.ok newTransaction, transactions ++ [newTransaction])
  | .error e => (.error e, fileContents)

/-- The read-modify-write append shared by the blob backend
(`addTransactionBlob`, src/unnamed/part_002 lines 117-131) and the
local-file backends: read the whole stored list, push the new
transaction, and OVERWRITE the store with the result. -/
def addTransactionRMW (stored : List Transaction) (t : Transaction) :
    List Transaction :=
  stored ++ [t]

/-- Two concurrent read-modify-write appends, interleaved so that both
reads complete before either write (two tabs appending at once): each
writer overwrites the store with its own pushed list, so writer 2's
overwrite replaces writer 1's.  Returns the store's final contents. -/
def concurrentAppendRace (stored : List Transaction) (t1 t2 : Transaction) :
    List Transaction :=
  let snapshot1 := stored
  let snapshot2 := stored
  let _afterWrite1 := addTransactionRMW snapshot1 t1
  let afterWrite2 := addTransactionRMW snapshot2 t2
  afterWrite2

/-! ## Claim theorems -/

/-- C1 (code bug): the claim demands that an Add whose unit is
incompatible with a non-empty balance must NOT silently produce the raw
sum of the two quantities.  The code does exactly that raw sum
(src/unnamed/part_001 lines 175-184, branch comment "Pragmatisch: Wir
addieren einfach"): aggregating an Add of 100 ml of milk followed by an
Add of 2 stück of milk yields the balance 102 with unit "ml" — the raw
sum of quantities carried by incompatible units. -/
theorem c1_mismatched_add_is_raw_sum :
    getInventory
        [⟨"t1", 0, .ADD, "milk", 100, some "ml"⟩,
         ⟨"t2", 1, .ADD, "milk", 2, some "stück"⟩] =
      [⟨"milk", 102, some "ml"⟩] := by decide

/-- C2: a Remove whose unit differs from the key's current unit is a
no-op: the aggregation map is left completely unchanged; in particular
`[Add(1000,"milk","ml"), Remove(1,"milk","count")]` aggregates to milk
with quantity 1000 and unit "ml". -/
theorem c2_mismatched_remove_is_noop :
    (∀ (m : InventoryMap) (tx : Transaction) (s : ItemState),
        tx.type = .REMOVE →
        mapGet m (jsToLower tx.name) = some s →
        s.unit ≠ tx.unit →
        applyTx m tx = m) ∧
      getInventory
          [⟨"t1", 0, .ADD, "milk", 1000, some "ml"⟩,
           ⟨"t2", 1, .REMOVE, "milk", 1, some "count"⟩] =
        [⟨"milk", 1000, some "ml"⟩] := by
  constructor
  · intro m tx s hty hget hne
    simp only [applyTx, hget, hty]
    simp [hne]
  · decide

/-- Witness for C2: the no-op theorem applied to the concrete state
holding 1000 ml of milk and a mismatched one-count removal. -/
theorem c2_mismatched_remove_is_noop_witness :
    applyTx [("milk", ⟨1000, some "ml"⟩)]
        ⟨"t2", 1, .REMOVE, "milk", 1, some "count"⟩ =
      [("milk", ⟨1000, some "ml"⟩)] :=
  c2_mismatched_remove_is_noop.1 _ _ ⟨1000, some "ml"⟩ rfl (by decide) (by decide)

/-- C3 counterexample: the claim says `normalize(3, absent)` equals
`(3, "count")`, but the code returns the canonical absent-unit label
`'stück'`, not `"count"`. -/
theorem c3_counterexample : normalize 3 none ≠ (3, "count") := by decide

/-- C3 (amended): for every quantity `q`, `normalize` applied to `q`
with an absent unit label returns `(q, "stück")` — the code's canonical
unit for discrete items is the German `'stück'`, not `"count"`. -/
theorem c3_absent_unit_is_stueck (q : Int) : normalize q none = (q, "stück") := rfl

/-- C4 counterexample: the claim's alias sets use the English spellings
"kilogram" and "gram"; the code's alias lists hold the German
"kilogramm" and "gramm", so those labels fall through to the
pass-through branch instead of being converted. -/
theorem c4_counterexample :
    normalize 1 (some "kilogram") ≠ (1000, "g") ∧
      normalize 1 (some "kilogram") = (1, "kilogram") ∧
      normalize 1 (some "gram") ≠ (1, "g") ∧
      normalize 1 (some "gram") = (1, "gram") := by decide

/-- C4 (amended): with the code's alias sets — {"kg","kilo","kilogramm"}
and {"g","gramm","gr"} for mass, {"l","liter"} and {"ml","milliliter"}
for volume — every label that trims and lower-cases into a set is
converted exactly as the claim states. -/
theorem c4_alias_conversion :
    (∀ (q : Int) (s : String), jsTrim (jsToLower s) ∈ ["kg", "kilo", "kilogramm"] →
        normalize q (some s) = (1000 * q, "g")) ∧
    (∀ (q : Int) (s : String), jsTrim (jsToLower s) ∈ ["g", "gramm", "gr"] →
        normalize q (some s) = (q, "g")) ∧
    (∀ (q : Int) (s : String), jsTrim (jsToLower s) ∈ ["l", "liter"] →
        normalize q (some s) = (1000 * q, "ml")) ∧
    (∀ (q : Int) (s : String), jsTrim (jsToLower s) ∈ ["ml", "milliliter"] →
        normalize q (some s) = (q, "ml")) := by
  refine ⟨?_, ?_, ?_, ?_⟩
  · intro q s h
    have hs : s ≠ "" := by
      intro hs0
      subst hs0
      revert h
      decide
    simp only [List.mem_cons, List.mem_singleton, List.not_mem_nil, or_false] at h
    rcases h with h | h | h <;> simp [normalize, hs, h, mul_comm]
  · intro q s h
    have hs : s ≠ "" := by
      intro hs0
      subst hs0
      revert h
      decide
    simp only [List.mem_cons, List.mem_singleton, List.not_mem_nil, or_false] at h
    rcases h with h | h | h <;> simp [normalize, hs, h]
  · intro q s h
    have hs : s ≠ "" := by
      intro hs0
      subst hs0
      revert h
      decide
    simp only [List.mem_cons, List.mem_singleton, List.not_mem_nil, or_false] at h
    rcases h with h | h <;> simp [normalize, hs, h, mul_comm]
  · intro q s h
    have hs : s ≠ "" := by
      intro hs0
      subst hs0
      revert h
      decide
    simp only [List.mem_cons, List.mem_singleton, List.not_mem_nil, or_false] at h
    rcases h with h | h <;> simp [normalize, hs, h]

/-- Witness for C4: each conversion applied at a concrete label
(upper-case and surrounded by whitespace where illustrative). -/
theorem c4_alias_conversion_witness :
    normalize 2 (some " KG ") = (2000, "g") ∧
      normalize 3 (some "Gramm") = (3, "g") ∧
      normalize 7 (some "L") = (7000, "ml") ∧
      normalize 4 (some "Milliliter") = (4, "ml") :=
  ⟨by rw [c4_alias_conversion.1 2 " KG " (by decide)]; decide,
   c4_alias_conversion.2.1 3 "Gramm" (by decide),
   by rw [c4_alias_conversion.2.2.1 7 "L" (by decide)]; decide,
   c4_alias_conversion.2.2.2 4 "Milliliter" (by decide)⟩

/-- C5: an Add hitting a key whose current quantity is 0 — including the
lazily-initialized state on first sight — adopts the transaction's unit
and adds its quantity; in particular the apple ledger of the claim
aggregates to `apple: 2 g`. -/
theorem c5_add_on_zero_adopts_unit :
    (∀ (m : InventoryMap) (tx : Transaction),
        tx.type = .ADD →
        (∀ s, mapGet m (jsToLower tx.name) = some s → s.quantity = 0) →
        mapGet (applyTx m tx) (jsToLower tx.name) = some ⟨tx.quantity, tx.unit⟩) ∧
      getInventory
          [⟨"t1", 0, .ADD, "apple", 5, some "count"⟩,
           ⟨"t2", 1, .REMOVE, "apple", 5, some "count"⟩,
           ⟨"t3", 2, .ADD, "apple", 2, some "g"⟩] =
        [⟨"apple", 2, some "g"⟩] := by
  constructor
  · intro m tx hty hzero
    rw [mapGet_applyTx_self]
    cases hget : mapGet m (jsToLower tx.name) with
    | none => simp [stepAtKey, hty]
    | some s =>
      have hq : s.quantity = 0 := hzero s hget
      simp [stepAtKey, hty, hq]
  · decide

/-- Witness for C5: first sight of a key (empty map), an Add of 2 g. -/
theorem c5_add_on_zero_adopts_unit_witness :
    mapGet (applyTx [] ⟨"t3", 2, .ADD, "apple", 2, some "g"⟩)
        (jsToLower "apple") = some ⟨2, some "g"⟩ :=
  c5_add_on_zero_adopts_unit.1 [] ⟨"t3", 2, .ADD, "apple", 2, some "g"⟩ rfl
    (fun _s hs => Option.noConfusion hs)

/-- C6: the snapshot has exactly one item per case-folded key whose final
folded quantity is positive and none for keys whose final quantity is
at most 0; in particular the fully-depleted egg ledger aggregates to the
empty snapshot. -/
theorem c6_snapshot_exactly_positive_keys :
    (∀ (txs : List Transaction) (k : String),
        (getInventory txs).countP (fun i => jsToLower i.name == k) =
          if 0 < finalQty txs k then 1 else 0) ∧
      getInventory
          [⟨"t1", 0, .ADD, "egg", 2, some "count"⟩,
           ⟨"t2", 1, .REMOVE, "egg", 2, some "count"⟩] = [] :=
  ⟨countP_getInventory, by decide⟩

/-- C7 counterexample: the two ledgers below are permutations of each
other and all of their transactions carry the same unit (the empty
string, reachable through `normalize` from the all-whitespace label
" "), yet the snapshots differ: Remove-then-Add leaves 5, Add-then-
Remove leaves 4 — the initializer `tx.unit || 'stück'` replaces the
falsy unit, so the leading Remove is dropped as a unit mismatch. -/
theorem c7_counterexample :
    ([⟨"t1", 0, .REMOVE, "x", 1, some ""⟩, ⟨"t2", 1, .ADD, "x", 5, some ""⟩] :
        List Transaction).Perm
        [⟨"t2", 1, .ADD, "x", 5, some ""⟩, ⟨"t1", 0, .REMOVE, "x", 1, some ""⟩] ∧
      getInventory
          [⟨"t1", 0, .REMOVE, "x", 1, some ""⟩, ⟨"t2", 1, .ADD, "x", 5, some ""⟩] =
        [⟨"x", 5, some ""⟩] ∧
      getInventory
          [⟨"t2", 1, .ADD, "x", 5, some ""⟩, ⟨"t1", 0, .REMOVE, "x", 1, some ""⟩] =
        [⟨"x", 4, some ""⟩] := by
  refine ⟨?_, by decide, by decide⟩
  exact List.Perm.swap _ _ _

/-- C7 (amended): when every transaction of a key carries the same
non-empty unit label `u`, the key's final quantity in the snapshot is
invariant under any permutation of the transaction sequence. -/
theorem c7_same_unit_order_invariance (txs txs2 : List Transaction)
    (k u : String) (hperm : txs.Perm txs2) (hu : u ≠ "")
    (hall : ∀ t ∈ txs, jsToLower t.name = k → t.unit = some u) :
    ((getInventory txs).filter (fun i => jsToLower i.name == k)).map
        (fun i => i.quantity) =
      ((getInventory txs2).filter (fun i => jsToLower i.name == k)).map
        (fun i => i.quantity) := by
  have hall2 : ∀ t ∈ txs2, jsToLower t.name = k → t.unit = some u :=
    fun t ht => hall t (hperm.mem_iff.mpr ht)
  have hfq : finalQty txs k = finalQty txs2 k := by
    rw [finalQty_same_unit txs k u hu hall, finalQty_same_unit txs2 k u hu hall2]
    exact signedSum_perm txs txs2 k hperm
  rw [mapQty_filter_getInventory, mapQty_filter_getInventory, hfq]

/-- Witness for C7: a two-transaction ml ledger and its transposition. -/
theorem c7_same_unit_order_invariance_witness :
    ((getInventory [⟨"t1", 0, .ADD, "x", 5, some "ml"⟩,
          ⟨"t2", 1, .REMOVE, "x", 2, some "ml"⟩]).filter
        (fun i => jsToLower i.name == "x")).map (fun i => i.quantity) =
      ((getInventory [⟨"t2", 1, .REMOVE, "x", 2, some "ml"⟩,
            ⟨"t1", 0, .ADD, "x", 5, some "ml"⟩]).filter
          (fun i => jsToLower i.name == "x")).map (fun i => i.quantity) :=
  c7_same_unit_order_invariance _ _ "x" "ml" (List.Perm.swap _ _ _)
    (by decide) (by decide)

/-- C8 counterexample: a backend I/O error during a ledger read is NOT
surfaced as a failure — the read succeeds and is indistinguishable from
a successful read of an empty ledger. -/
theorem c8_counterexample :
    getTransactions (Except.error "EIO") = getTransactions (Except.ok []) ∧
      getTransactions (Except.error "EIO") = [] := ⟨rfl, rfl⟩

/-- C8 (amended): a backend error during a ledger read is swallowed —
the read succeeds and returns the empty transaction list instead of
reporting a persistence failure; a backend write error during an append
propagates to the caller as an exception and (the write being modelled
all-or-nothing) the durable file contents are unchanged. -/
theorem c8_read_swallows_append_propagates :
    (∀ e : String, getTransactions (Except.error e) = []) ∧
      (∀ (fileContents : List Transaction) (e id : String) (ts : Int)
          (ty : TxType) (name : String) (q : Int) (unit : Option String),
        addTransaction fileContents (Except.error e) id ts ty name q unit =
          (Except.error e, fileContents)) :=
  ⟨fun _ => rfl, fun _ _ _ _ _ _ _ _ => rfl⟩

/-- C9 (code bug): two concurrent read-modify-write appends whose reads
both precede the writes leave ONE transaction in the store, not two —
the second overwrite replaces the first writer's push, losing its
transaction. -/
theorem c9_concurrent_append_loses_update :
    (concurrentAppendRace []
          ⟨"w1", 0, .ADD, "milk", 1, some "stück"⟩
          ⟨"w2", 0, .ADD, "egg", 2, some "stück"⟩).length = 1 ∧
      concurrentAppendRace []
          ⟨"w1", 0, .ADD, "milk", 1, some "stück"⟩
          ⟨"w2", 0, .ADD, "egg", 2, some "stück"⟩ =
        [⟨"w2", 0, .ADD, "egg", 2, some "stück"⟩] := ⟨rfl, rfl⟩

/-- C10 counterexample: for a first-seen key whose Remove carries the
empty-string unit (a value `normalize` produces for an all-whitespace
label), the initializer `tx.unit || 'stück'` does NOT adopt the
transaction's unit: the state after the Remove is `(0, 'stück')`, not
the claimed `(-1, "")`. -/
theorem c10_counterexample :
    mapGet (applyTx [] ⟨"t1", 0, .REMOVE, "x", 1, some ""⟩) "x" ≠
        some ⟨-1, some ""⟩ ∧
      mapGet (applyTx [] ⟨"t1", 0, .REMOVE, "x", 1, some ""⟩) "x" =
        some ⟨0, some "stück"⟩ := by decide

/-- C10 (amended): for a key first seen through `Remove(q, u)` with
`q > 0` and a non-empty unit `u`, the fold initializes the key with unit
`u` and applies the subtraction, leaving the internal balance `-q`; a
ledger consisting of that Remove emits no snapshot entry; and a later
same-unit Add of `p` nets to `p - q` instead of starting from 0. -/
theorem c10_first_remove_goes_negative :
    (∀ (m : InventoryMap) (tx : Transaction) (q : Int) (u : String),
        tx.type = .REMOVE → tx.quantity = q → tx.unit = some u → u ≠ "" →
        0 < q → mapGet m (jsToLower tx.name) = none →
        mapGet (applyTx m tx) (jsToLower tx.name) = some ⟨-q, some u⟩) ∧
    (∀ (tx : Transaction) (q : Int) (u : String),
        tx.type = .REMOVE → tx.quantity = q → tx.unit = some u → u ≠ "" →
        0 < q → getInventory [tx] = []) ∧
    (∀ (m : InventoryMap) (tx : Transaction) (p q : Int) (u : String),
        tx.type = .ADD → tx.quantity = p → tx.unit = some u →
        mapGet m (jsToLower tx.name) = some ⟨-q, some u⟩ → 0 < q →
        mapGet (applyTx m tx) (jsToLower tx.name) = some ⟨p - q, some u⟩) := by
  refine ⟨?_, ?_, ?_⟩
  · intro m tx q u hty hq htu hu hqpos hget
    rw [mapGet_applyTx_self, hget]
    have := stepAtKey_same_unit none 0 tx u hu htu (Or.inl ⟨rfl, rfl⟩)
    rw [this]
    simp [signed, hty, hq]
  · intro tx q u hty hq htu hu hqpos
    unfold getInventory
    have hmap : inventoryFold [tx] =
        [(jsToLower tx.name, ⟨0 - tx.quantity, some u⟩)] := by
      have hjs : jsOr (some u) "stück" = u := by simp [jsOr, hu]
      simp only [inventoryFold, List.foldl_cons, List.foldl_nil]
      unfold applyTx
      simp [mapGet, hty, htu, hjs, mapSet]
    rw [hmap]
    have hneg : ¬ ((0 : Int) - tx.quantity > 0) := by omega
    simp [hneg]
    omega
  · intro m tx p q u hty hp htu hget hqpos
    rw [mapGet_applyTx_self, hget]
    have hne : (-q : Int) ≠ 0 := by omega
    simp only [stepAtKey, hty, hne, if_false]
    simp [ItemState.mk.injEq, hp]
    omega

/-- Witness for C10: a first Remove of 3 ml of "x", the resulting empty
snapshot, and a later Add of 5 ml netting to 2. -/
theorem c10_first_remove_goes_negative_witness :
    mapGet (applyTx [] ⟨"r", 0, .REMOVE, "x", 3, some "ml"⟩)
        (jsToLower "x") = some ⟨-3, some "ml"⟩ ∧
      getInventory [⟨"r", 0, .REMOVE, "x", 3, some "ml"⟩] = [] ∧
      mapGet (applyTx [("x", ⟨-3, some "ml"⟩)] ⟨"a", 1, .ADD, "x", 5, some "ml"⟩)
          (jsToLower "x") = some ⟨5 - 3, some "ml"⟩ :=
  ⟨c10_first_remove_goes_negative.1 [] _ 3 "ml" rfl rfl rfl (by decide)
      (by decide) (by decide),
   c10_first_remove_goes_negative.2.1 _ 3 "ml" rfl rfl rfl (by decide) (by decide),
   c10_first_remove_goes_negative.2.2 _ _ 5 3 "ml" rfl rfl rfl (by decide)
      (by decide)⟩

end KitchenLedger
